import Mathlib

/-!
# Verification of the `html_simple` HTML generation library

A shallow embedding of the Go package `html_simple` (attribute policy
engine, URL sanitizer, element tree and serializer), together with models
of the pieces of the Go standard library it calls (`html.EscapeString`,
`net/url.Parse`, `(*url.URL).String`, `strings.Fields`).

Go strings are modelled as lists of characters (`Str`).  Go operates on
bytes; for ASCII data the two views coincide, and where the standard
library works byte-wise on non-ASCII data (percent-escaping) the model
expands a character into its UTF-8 bytes explicitly.
-/

set_option maxRecDepth 10000

abbrev Str := List Char

/-- `strings.HasPrefix s pat` (does `s` start with `pat`). -/
def listStarts : Str → Str → Bool
  | _, [] => true
  | [], _ :: _ => false
  | c :: cs, p :: ps => c = p && listStarts cs ps

/-- `strings.Cut s (single-char sep)`: returns (before, after, found). -/
def cutChar : Str → Char → Str × Str × Bool
  | [], _ => ([], [], false)
  | c :: cs, sep =>
    if c = sep then ([], cs, true)
    else
      let r := cutChar cs sep
      (c :: r.1, r.2.1, r.2.2)

/-- Split at the LAST occurrence of `sep`: `some (a, b)` with `s = a ++ sep :: b`. -/
def lastCut : Str → Char → Option (Str × Str)
  | [], _ => none
  | c :: cs, sep =>
    match lastCut cs sep with
    | some (a, b) => some (c :: a, b)
    | none => if c = sep then some ([], cs) else none

/-- Model of Go `html.EscapeString` on a single character: the five
HTML-special characters are replaced by their entities, every other
character passes through unchanged. -/
def escChar (c : Char) : Str :=
  if c = '&' then "&amp;".data
  else if c = '\x27' then "&#39;".data
  else if c = '<' then "&lt;".data
  else if c = '>' then "&gt;".data
  else if c = '"' then "&#34;".data
  else [c]

/-- Model of Go `html.EscapeString` (a `strings.Replacer` whose patterns
are the five single characters, hence a character-wise map). -/
def escapeString : Str → Str
  | [] => []
  | c :: cs => escChar c ++ escapeString cs

/-! ## Model of the fragment of Go `net/url` used by `urlSanitizeFunc` -/

/-- The encoding modes of `net/url`'s `shouldEscape`/`escape`/`unescape`. -/
inductive Enc
  | path | pathSegment | host | zone | userPassword | queryComponent | fragment
deriving DecidableEq

/-- Is the character (used as a byte value) in the given string? -/
def bIn (c : Nat) (s : String) : Bool := s.data.any fun ch => ch.toNat = c

def isAlphaNumByte (c : Nat) : Bool :=
  (0x61 ≤ c && c ≤ 0x7a) || (0x41 ≤ c && c ≤ 0x5a) || (0x30 ≤ c && c ≤ 0x39)

/-- Model of `net/url.shouldEscape(c byte, mode encoding) bool`. -/
def shouldEsc (c : Nat) (mode : Enc) : Bool :=
  if isAlphaNumByte c then false
  else if (mode = Enc.host || mode = Enc.zone) && bIn c "!$&\x27()*+,;=:[]<>\x22" then
    false
  else if bIn c "-_.~" then false
  else if bIn c "$&+,/:;=?@" then
    (match mode with
     | Enc.path => c = '?'.toNat
     | Enc.pathSegment => c = '/'.toNat || c = ';'.toNat || c = ','.toNat || c = '?'.toNat
     | Enc.userPassword => c = '@'.toNat || c = '/'.toNat || c = '?'.toNat || c = ':'.toNat
     | Enc.queryComponent => true
     | Enc.fragment => false
     | Enc.host => true
     | Enc.zone => true)
  else if mode = Enc.fragment && bIn c "!()*" then false
  else true

/-- UTF-8 bytes of a character (Go strings are byte sequences; escaping
works byte-wise). -/
def utf8Bytes (c : Char) : List Nat :=
  let n := c.toNat
  if n < 0x80 then [n]
  else if n < 0x800 then [0xC0 + n / 0x40, 0x80 + n % 0x40]
  else if n < 0x10000 then [0xE0 + n / 0x1000, 0x80 + (n / 0x40) % 0x40, 0x80 + n % 0x40]
  else [0xF0 + n / 0x40000, 0x80 + (n / 0x1000) % 0x40, 0x80 + (n / 0x40) % 0x40,
        0x80 + n % 0x40]

def hexDigitU (n : Nat) : Char := "0123456789ABCDEF".data.getD n '0'

/-- One byte of `net/url.escape`. -/
def escByte (mode : Enc) (b : Nat) : Str :=
  if shouldEsc b mode then
    if b = ' '.toNat && mode = Enc.queryComponent then ['+']
    else ['%', hexDigitU (b / 16), hexDigitU (b % 16)]
  else [Char.ofNat b]

/-- Model of `net/url.escape(s, mode)`. -/
def escWith (mode : Enc) : Str → Str
  | [] => []
  | c :: cs => ((utf8Bytes c).map (escByte mode)).flatten ++ escWith mode cs

def ishex (c : Char) : Bool :=
  ('0' ≤ c && c ≤ '9') || ('a' ≤ c && c ≤ 'f') || ('A' ≤ c && c ≤ 'F')

def unhex (c : Char) : Nat :=
  if '0' ≤ c && c ≤ '9' then c.toNat - '0'.toNat
  else if 'a' ≤ c && c ≤ 'f' then c.toNat - 'a'.toNat + 10
  else if 'A' ≤ c && c ≤ 'F' then c.toNat - 'A'.toNat + 10
  else 0

/-- Model of `net/url.unescape(s, mode)`; `none` is the error case.
Percent-decoded bytes are represented as single scalar values. -/
def unescapeMode (mode : Enc) : Str → Option Str
  | [] => some []
  | '%' :: rest =>
    match rest with
    | a :: b :: rest2 =>
      if ishex a && ishex b then
        let v := unhex a * 16 + unhex b
        if mode = Enc.host && unhex a < 8 && !(a = '2' && b = '5') then none
        else if mode = Enc.zone && !(a = '2' && b = '5') && v ≠ ' '.toNat &&
                shouldEsc v Enc.host then none
        else
          match unescapeMode mode rest2 with
          | some t => some (Char.ofNat v :: t)
          | none => none
      else none
    | _ => none
  | '+' :: rest =>
    match unescapeMode mode rest with
    | some t => some ((if mode = Enc.queryComponent then ' ' else '+') :: t)
    | none => none
  | c :: rest =>
    if (mode = Enc.host || mode = Enc.zone) && c.toNat < 0x80 && shouldEsc c.toNat mode then
      none
    else
      match unescapeMode mode rest with
      | some t => some (c :: t)
      | none => none

/-- Model of `net/url.validEncoded(s, mode)`. -/
def validEncodedM (mode : Enc) (s : Str) : Bool :=
  s.all fun c =>
    if bIn c.toNat "!$&\x27()*+,;=:@" then true
    else if c = '[' || c = ']' then true
    else if c = '%' then true
    else !shouldEsc c.toNat mode

/-- Model of `net/url.URL` (the fields relevant to `Parse`/`String`;
`user` is `username × optional password`). -/
structure GoURL where
  scheme : Str := []
  opq : Str := []
  user : Option (Str × Option Str) := none
  host : Str := []
  path : Str := []
  rawPath : Str := []
  omitHost : Bool := false
  forceQuery : Bool := false
  rawQuery : Str := []
  fragment : Str := []
  rawFragment : Str := []
deriving DecidableEq

/-- Model of `(*URL).setPath`. -/
def setPathM (u : GoURL) (p : Str) : Option GoURL :=
  match unescapeMode Enc.path p with
  | none => none
  | some path =>
    if p = escWith Enc.path path then some { u with path := path, rawPath := [] }
    else some { u with path := path, rawPath := p }

/-- Model of `(*URL).setFragment`. -/
def setFragmentM (u : GoURL) (f : Str) : Option GoURL :=
  match unescapeMode Enc.fragment f with
  | none => none
  | some frag =>
    if f = escWith Enc.fragment frag then
      some { u with fragment := frag, rawFragment := [] }
    else some { u with fragment := frag, rawFragment := f }

/-- Model of `(*URL).EscapedPath`. -/
def escapedPath (u : GoURL) : Str :=
  if !u.rawPath.isEmpty && validEncodedM Enc.path u.rawPath &&
      (match unescapeMode Enc.path u.rawPath with
       | some p => p = u.path
       | none => false) then u.rawPath
  else if u.path = "*".data then "*".data
  else escWith Enc.path u.path

/-- Model of `(*URL).EscapedFragment`. -/
def escapedFragment (u : GoURL) : Str :=
  if !u.rawFragment.isEmpty && validEncodedM Enc.fragment u.rawFragment &&
      (match unescapeMode Enc.fragment u.rawFragment with
       | some f => f = u.fragment
       | none => false) then u.rawFragment
  else escWith Enc.fragment u.fragment

/-- Model of `net/url.validOptionalPort`. -/
def validOptionalPort : Str → Bool
  | [] => true
  | c :: rest => c = ':' && rest.all fun b => '0' ≤ b && b ≤ '9'

def idxOfSubAux (pat : Str) : Str → Nat → Option Nat
  | [], i => if listStarts [] pat then some i else none
  | c :: cs, i => if listStarts (c :: cs) pat then some i else idxOfSubAux pat cs (i + 1)

/-- `strings.Index s pat` (index of the first occurrence of a substring). -/
def idxOfSub (s pat : Str) : Option Nat := idxOfSubAux pat s 0

/-- Model of `net/url.parseHost`. -/
def parseHostM (host : Str) : Option Str :=
  if listStarts host "[".data then
    match lastCut host ']' with
    | none => none
    | some (pre, post) =>
      if !validOptionalPort post then none
      else
        match idxOfSub pre "%25".data with
        | some z =>
          match unescapeMode Enc.host (pre.take z), unescapeMode Enc.zone (pre.drop z),
                unescapeMode Enc.host (']' :: post) with
          | some h1, some h2, some h3 => some (h1 ++ h2 ++ h3)
          | _, _, _ => none
        | none => unescapeMode Enc.host host
  else
    match lastCut host ':' with
    | some (_, post) =>
      if !validOptionalPort (':' :: post) then none
      else unescapeMode Enc.host host
    | none => unescapeMode Enc.host host

def isAlphaCh (c : Char) : Bool := ('a' ≤ c && c ≤ 'z') || ('A' ≤ c && c ≤ 'Z')

def isDigitCh (c : Char) : Bool := '0' ≤ c && c ≤ '9'

/-- Model of `net/url.validUserinfo`. -/
def validUserinfo (s : Str) : Bool :=
  s.all fun r => isAlphaCh r || isDigitCh r || bIn r.toNat "-._:~!$&\x27()*+,;=%@"

/-- Model of `net/url.parseAuthority`: returns `(user, host)`. -/
def parseAuthorityM (authority : Str) : Option (Option (Str × Option Str) × Str) :=
  match lastCut authority '@' with
  | none =>
    match parseHostM authority with
    | none => none
    | some h => some (none, h)
  | some (userinfo, hostpart) =>
    match parseHostM hostpart with
    | none => none
    | some h =>
      if !validUserinfo userinfo then none
      else if !userinfo.contains ':' then
        match unescapeMode Enc.userPassword userinfo with
        | none => none
        | some un => some (some (un, none), h)
      else
        let c := cutChar userinfo ':'
        match unescapeMode Enc.userPassword c.1, unescapeMode Enc.userPassword c.2.1 with
        | some un, some pw => some (some (un, some pw), h)
        | _, _ => none

def getSchemeAux (raw : Str) : Str → Str → Option (Str × Str)
  | _, [] => some ([], raw)
  | acc, c :: cs =>
    if isAlphaCh c then getSchemeAux raw (acc ++ [c]) cs
    else if isDigitCh c || c = '+' || c = '-' || c = '.' then
      if acc.isEmpty then some ([], raw) else getSchemeAux raw (acc ++ [c]) cs
    else if c = ':' then
      if acc.isEmpty then none else some (acc, cs)
    else some ([], raw)

/-- Model of `net/url.getScheme`: `some (scheme, rest)`, `none` on error. -/
def getSchemeM (raw : Str) : Option (Str × Str) := getSchemeAux raw [] raw

/-- ASCII `strings.ToLower` (scheme characters are always ASCII). -/
def toLowerStr (s : Str) : Str :=
  s.map fun c => if 'A' ≤ c && c ≤ 'Z' then Char.ofNat (c.toNat + 32) else c

/-- Model of `net/url.stringContainsCTLByte`. -/
def containsCTL (s : Str) : Bool := s.any fun c => c.toNat < 0x20 || c.toNat = 0x7f

/-- Tail of `net/url.parse` after the scheme/query/opaque handling:
authority, `OmitHost` and `setPath`. -/
def parseRest (scheme : Str) (forceQuery : Bool) (rawQuery : Str) (rest : Str) :
    Option GoURL :=
  let base : GoURL := { scheme := scheme, forceQuery := forceQuery, rawQuery := rawQuery }
  if (!scheme.isEmpty || !listStarts rest "///".data) && listStarts rest "//".data then
    let afterSlashes := rest.drop 2
    let cut := cutChar afterSlashes '/'
    let authority := if cut.2.2 then cut.1 else afterSlashes
    let rest2 : Str := if cut.2.2 then '/' :: cut.2.1 else []
    match parseAuthorityM authority with
    | none => none
    | some (user, host) => setPathM { base with user := user, host := host } rest2
  else if !scheme.isEmpty && listStarts rest "/".data then
    setPathM { base with omitHost := true } rest
  else setPathM base rest

/-- Model of `net/url.parse(rawURL, false)` (the pre-fragment part). -/
def parseNoFrag (rawURL : Str) : Option GoURL :=
  if containsCTL rawURL then none
  else if rawURL = "*".data then some { path := "*".data }
  else
    match getSchemeM rawURL with
    | none => none
    | some (sch, rest0) =>
      let scheme := toLowerStr sch
      let fq : Str × Bool × Str :=
        if rest0.getLast? = some '?' && !rest0.dropLast.contains '?' then
          (rest0.dropLast, true, [])
        else
          let c := cutChar rest0 '?'
          (c.1, false, c.2.1)
      let rest1 := fq.1
      if !listStarts rest1 "/".data then
        if !scheme.isEmpty then
          some { scheme := scheme, opq := rest1, forceQuery := fq.2.1, rawQuery := fq.2.2 }
        else if (cutChar rest1 '/').1.contains ':' then none
        else parseRest scheme fq.2.1 fq.2.2 rest1
      else parseRest scheme fq.2.1 fq.2.2 rest1

/-- Model of `net/url.Parse`. -/
def goUrlParse (rawURL : Str) : Option GoURL :=
  let c := cutChar rawURL '#'
  match parseNoFrag c.1 with
  | none => none
  | some url => if c.2.1.isEmpty then some url else setFragmentM url c.2.1

def userinfoStr (ui : Str × Option Str) : Str :=
  match ui.2 with
  | none => escWith Enc.userPassword ui.1
  | some pw => escWith Enc.userPassword ui.1 ++ [':'] ++ escWith Enc.userPassword pw

/-- Model of `(*url.URL).String`. -/
def urlString (u : GoURL) : Str :=
  let b1 : Str := if !u.scheme.isEmpty then u.scheme ++ [':'] else []
  let b2 : Str :=
    if !u.opq.isEmpty then b1 ++ u.opq
    else
      let b :=
        if !u.scheme.isEmpty || !u.host.isEmpty || u.user.isSome then
          if u.omitHost && u.host.isEmpty && u.user.isNone then b1
          else
            let b := if !u.host.isEmpty || !u.path.isEmpty || u.user.isSome then
                b1 ++ "//".data
              else b1
            let b := match u.user with
              | some ui => b ++ userinfoStr ui ++ ['@']
              | none => b
            if !u.host.isEmpty then b ++ escWith Enc.host u.host else b
        else b1
      let p := escapedPath u
      let b := if !p.isEmpty && p.head? ≠ some '/' && !u.host.isEmpty then b ++ ['/'] else b
      let b :=
        if b.isEmpty then
          if (cutChar p '/').1.contains ':' then b ++ "./".data else b
        else b
      b ++ p
  let b3 := if u.forceQuery || !u.rawQuery.isEmpty then b2 ++ ['?'] ++ u.rawQuery else b2
  if !u.fragment.isEmpty then b3 ++ ['#'] ++ escapedFragment u else b3

/-- The URL sanitizer closure defined inside `New`
(src/unnamed/part_001, lines 341-353). -/
def urlSanitizeFunc (s : Str) : Str :=
  match goUrlParse s with
  | none => "#".data
  | some u =>
    if u.scheme = "javascript".data then "#".data
    else if u.scheme.isEmpty && !listStarts u.path "/".data then "#".data
    else escapeString (urlString u)

/-! ## Attribute policy table (`New`, src/unnamed/part_001 lines 300-382) -/

/-- The two sanitize functions ever stored in the table
(`html.EscapeString` and the URL closure); entries never hold a nil
function, so the nil branch of `setAttribute` is unreachable. -/
inductive Sanitizer
  | escape
  | url
deriving DecidableEq

def runSanitizer : Sanitizer → Str → Str
  | Sanitizer.escape, s => escapeString s
  | Sanitizer.url, s => urlSanitizeFunc s

/-- `attributeConfig` from the source. -/
structure AttrConfig where
  allowed : Bool
  fn : Sanitizer
deriving DecidableEq

/-- `map[string]attributeConfig`, determinized as an association list in
insertion order (Go map iteration order is unspecified). -/
abbrev PolicyTable := List (Str × AttrConfig)

def mapLookup {α : Type} : List (Str × α) → Str → Option α
  | [], _ => none
  | (k, v) :: rest, key => if k = key then some v else mapLookup rest key

def mapInsert {α : Type} : List (Str × α) → Str → α → List (Str × α)
  | [], key, v => [(key, v)]
  | (k, w) :: rest, key, v =>
    if k = key then (key, v) :: rest else (k, w) :: mapInsert rest key v

def defaultAllowed : List Str :=
  ["accept", "accept-charset", "accesskey", "allow", "alt", "as", "async",
   "autocapitalize", "autocomplete", "autoplay", "background", "bgcolor", "border",
   "capture", "charset", "checked", "cite", "class", "color", "cols", "colspan",
   "content", "contenteditable", "controls", "coords", "crossorigin", "data", "data-*",
   "datetime", "decoding", "default", "defer", "dir", "dirname", "disabled", "download",
   "draggable", "enctype", "enterkeyhint", "for", "form", "formenctype",
   "formmethod", "formnovalidate", "formtarget", "headers", "height", "hidden", "high",
   "hreflang", "http-equiv", "id", "integrity", "inputmode", "ismap", "itemprop",
   "kind", "label", "lang", "loading", "list", "loop", "low", "max", "maxlength",
   "minlength", "media", "method", "min", "multiple", "muted", "name", "novalidate",
   "open", "optimum", "pattern", "placeholder", "playsinline",
   "preload", "readonly", "referrerpolicy", "rel", "required", "reversed", "role",
   "rows", "rowspan", "sandbox", "scope", "selected", "shape", "size", "sizes",
   "slot", "span", "spellcheck", "srcdoc", "srclang", "start", "step",
   "style", "tabindex", "target", "title", "translate", "type", "usemap", "value",
   "width", "wrap"].map String.data

def defaultAllowedUrlBase : List Str :=
  ["href", "src", "action", "formaction", "srcset", "ping", "poster"].map String.data

def defaultAllowedHtmx : List Str :=
  ["hx-get", "hx-post", "hx-put", "hx-patch", "hx-delete"].map String.data

def defaultAllowedUrl : List Str := defaultAllowedUrlBase ++ defaultAllowedHtmx

def escCfg : AttrConfig := ⟨true, Sanitizer.escape⟩

def urlCfg : AttrConfig := ⟨true, Sanitizer.url⟩

/-- Body of the first loop of `New` (over `defaultAllowed`): the
`continue` fires when the custom slice is non-nil and the name is already
present. -/
def defaultStep (allowedAttributesCustom : Option (List Str)) (m : PolicyTable)
    (attr : Str) : PolicyTable :=
  if allowedAttributesCustom.isSome && (mapLookup m attr).isSome then m
  else mapInsert m attr escCfg

/-- Body of the loop over a custom attribute slice (`for _, attribute :=
range allowedAttributesCustom`). -/
def customStep (m : PolicyTable) (nm : Str) : PolicyTable := mapInsert m nm escCfg

/-- Body of the second loop of `New` (over `defaultAllowedUrl`),
mirroring the source line by line: the whole URL registration is guarded
by `allowedAttributesCustom != nil` (with its duplicated inner check),
`continue` skips the rest of the iteration including the nested custom
loop, and the custom loop re-registers every custom name with escape-only
sanitization on every iteration. -/
def urlStep (allowedAttributesCustom : Option (List Str)) (m : PolicyTable)
    (attr : Str) : PolicyTable :=
  match allowedAttributesCustom with
  | none => m
  | some cs =>
    if (mapLookup m attr).isSome then m
    else if (mapLookup m attr).isSome then m
    else cs.foldl customStep (mapInsert m attr urlCfg)

/-- Model of `New(allowedAttributesCustom []Attribute)`: builds the policy
table.  `none` models a nil slice, `some l` a non-nil slice of attribute
names. -/
def newGenerator (allowedAttributesCustom : Option (List Str)) : PolicyTable :=
  defaultAllowedUrl.foldl (urlStep allowedAttributesCustom)
    (defaultAllowed.foldl (defaultStep allowedAttributesCustom) [])

/-! ## Elements, attribute assignment and serialization -/

/-- `unicode.IsSpace` restricted to Latin-1 (the white space characters
`strings.Fields` splits on, for the character range used here). -/
def goIsSpace (c : Char) : Bool :=
  c = ' ' || c = '\t' || c = '\n' || c.toNat = 0x0B || c.toNat = 0x0C || c = '\r' ||
    c.toNat = 0x85 || c.toNat = 0xA0

def goFieldsAux : Str → Str → List Str
  | [], acc => if acc.isEmpty then [] else [acc.reverse]
  | c :: cs, acc =>
    if goIsSpace c then
      if acc.isEmpty then goFieldsAux cs [] else acc.reverse :: goFieldsAux cs []
    else goFieldsAux cs (c :: acc)

/-- Model of `strings.Fields`. -/
def goFields (s : Str) : List Str := goFieldsAux s []

/-- `Attributes` is `map[string][]string`; determinized as an association
list in insertion order. -/
abbrev AttrMap := List (Str × List Str)

/-- `e.Attributes[key]` read with Go's zero-value-on-missing semantics. -/
def mapGetFrags (m : AttrMap) (k : Str) : List Str :=
  match mapLookup m k with
  | some v => v
  | none => []

/-- Model of `(*Element).setAttribute` (src/unnamed/part_001 lines
468-493), acting on the attribute map. -/
def setAttribute (tbl : PolicyTable) (attrs : AttrMap) (key value : Str) : AttrMap :=
  match mapLookup tbl key with
  | some config =>
    if config.allowed then
      let sanitizedValue := runSanitizer config.fn value
      if key = "class".data then
        mapInsert attrs key (mapGetFrags attrs key ++ goFields sanitizedValue)
      else if key = "style".data then
        mapInsert attrs key (mapGetFrags attrs key ++ [sanitizedValue])
      else mapInsert attrs key [sanitizedValue]
    else if listStarts key "js-".data then mapInsert attrs key [escapeString value]
    else if listStarts key "data-".data then mapInsert attrs key [escapeString value]
    else mapInsert attrs ("data-".data ++ key) [escapeString value]
  | none =>
    if listStarts key "js-".data then mapInsert attrs key [escapeString value]
    else if listStarts key "data-".data then mapInsert attrs key [escapeString value]
    else mapInsert attrs ("data-".data ++ key) [escapeString value]

/-- `Tag`: `NormalTag` or `VoidTag`, each carrying the tag name. -/
inductive GoTag
  | normal (nm : Str)
  | void (nm : Str)
deriving DecidableEq

def GoTag.name : GoTag → Str
  | GoTag.normal nm => nm
  | GoTag.void nm => nm

/-- `Element` (tag, attributes, children, content); the `Parent` and
`generator` back-references are dropped — serialization is top-down and
the policy table is passed explicitly. -/
inductive GoElement where
  | mk (tag : GoTag) (attributes : AttrMap) (children : List GoElement) (content : Str)

def GoElement.tag : GoElement → GoTag
  | GoElement.mk t _ _ _ => t

def GoElement.attributes : GoElement → AttrMap
  | GoElement.mk _ a _ _ => a

def GoElement.children : GoElement → List GoElement
  | GoElement.mk _ _ c _ => c

def GoElement.content : GoElement → Str
  | GoElement.mk _ _ _ s => s

/-- `(*Element).Attr` / `setAttribute` at the element level. -/
def GoElement.attr (tbl : PolicyTable) : GoElement → Str → Str → GoElement
  | GoElement.mk t a ch co, k, v => GoElement.mk t (setAttribute tbl a k v) ch co

/-- `(*Element).WithAttrs`. -/
def GoElement.withAttrs (tbl : PolicyTable) (e : GoElement) (kvs : List (Str × Str)) :
    GoElement :=
  kvs.foldl (fun e kv => e.attr tbl kv.1 kv.2) e

/-- `(*Element).AddString`. -/
def GoElement.addString : GoElement → Str → GoElement
  | GoElement.mk t a ch co, s => GoElement.mk t a ch (co ++ escapeString s)

/-- `strings.Join v " "`. -/
def joinSp : List Str → Str
  | [] => []
  | [x] => x
  | x :: y :: ys => x ++ [' '] ++ joinSp (y :: ys)

/-- The attribute-emission loop of `generateHtml` (lines 512-523),
including the vestigial switch whose `class` and default branches both
join with a single space. -/
def genAttrs : AttrMap → Str
  | [] => []
  | (k, v) :: rest =>
    [' '] ++ k ++ ['=', '\x22'] ++
      (if k = "class".data then joinSp v else joinSp v) ++ ['\x22'] ++ genAttrs rest

mutual

/-- Model of `(*Element).generateHtml` (lines 501-543). -/
def generateHtml : GoElement → Str
  | GoElement.mk tag attrs children content =>
    if tag.name.isEmpty then genChildren children
    else
      match tag with
      | GoTag.void _ => ['<'] ++ tag.name ++ genAttrs attrs ++ " />".data
      | GoTag.normal _ =>
        ['<'] ++ tag.name ++ genAttrs attrs ++ ['>'] ++
          (if !content.isEmpty then content else []) ++
          genChildren children ++ "</".data ++ tag.name ++ ['>']

def genChildren : List GoElement → Str
  | [] => []
  | e :: es => generateHtml e ++ genChildren es

end

/-! ## Auxiliary predicates and concrete fixtures -/

/-- Every value stored so far is the escape-only config (true throughout
the first loop of `New`). -/
def escOnly (m : PolicyTable) : Prop := ∀ k v, mapLookup m k = some v → v = escCfg

/-- A stored fragment is safe when it contains no literal double quote
and no literal `<`. -/
def fragSafe (f : Str) : Bool := f.all fun c => !(c == '\x22') && !(c == '<')

/-- Every fragment sequence in the attribute map is safe. -/
def attrsSafe (m : AttrMap) : Bool := m.all fun p => p.2.all fragSafe

def div0 : GoElement := GoElement.mk (GoTag.normal "div".data) [] [] []

def pEl : GoElement := GoElement.mk (GoTag.normal "p".data) [] [] "hi".data

def c2ex : Str := "http://example.com/a?b=c&d=e".data

def c2exU : GoURL :=
  { scheme := "http".data, host := "example.com".data, path := "/a".data,
    rawQuery := "b=c&d=e".data }

/-! ## Association-list lemmas -/

theorem mapLookup_insert {α : Type} (m : List (Str × α)) (k key : Str) (v : α) :
    mapLookup (mapInsert m k v) key = if k = key then some v else mapLookup m key := by
  induction m with
  | nil => simp [mapInsert, mapLookup]
  | cons p rest ih =>
    obtain ⟨k1, v1⟩ := p
    by_cases h1 : k1 = k
    · subst h1
      by_cases h2 : k1 = key <;> simp [mapInsert, mapLookup, h2]
    · by_cases h2 : k1 = key
      · subst h2
        have hk : ¬k = k1 := fun h => h1 h.symm
        simp [mapInsert, mapLookup, h1, hk]
      · simp [mapInsert, mapLookup, h1, h2, ih]

theorem mapInsert_insert {α : Type} (m : List (Str × α)) (k : Str) (a b : α) :
    mapInsert (mapInsert m k a) k b = mapInsert m k b := by
  induction m with
  | nil => simp [mapInsert]
  | cons p rest ih =>
    obtain ⟨k1, v1⟩ := p
    by_cases h1 : k1 = k
    · subst h1; simp [mapInsert]
    · simp [mapInsert, h1, ih]

/-! ## Safety of the escaper -/

theorem escChar_safe (c : Char) :
    '<' ∉ escChar c ∧ '>' ∉ escChar c ∧ '\x22' ∉ escChar c ∧ '\x27' ∉ escChar c := by
  by_cases h1 : c = '&'
  · subst h1; decide
  by_cases h2 : c = '\x27'
  · subst h2; decide
  by_cases h3 : c = '<'
  · subst h3; decide
  by_cases h4 : c = '>'
  · subst h4; decide
  by_cases h5 : c = '\x22'
  · subst h5; decide
  have hs : escChar c = [c] := by simp [escChar, h1, h2, h3, h4, h5]
  rw [hs]
  refine ⟨?_, ?_, ?_, ?_⟩ <;> intro hm
  · exact h3 (List.mem_singleton.mp hm).symm
  · exact h4 (List.mem_singleton.mp hm).symm
  · exact h5 (List.mem_singleton.mp hm).symm
  · exact h2 (List.mem_singleton.mp hm).symm

theorem escapeString_safe (s : Str) :
    '<' ∉ escapeString s ∧ '>' ∉ escapeString s ∧ '\x22' ∉ escapeString s ∧
      '\x27' ∉ escapeString s := by
  induction s with
  | nil => simp [escapeString]
  | cons c cs ih =>
    have h := escChar_safe c
    refine ⟨?_, ?_, ?_, ?_⟩ <;> simp only [escapeString, List.mem_append] <;> rintro (hm | hm)
    · exact h.1 hm
    · exact ih.1 hm
    · exact h.2.1 hm
    · exact ih.2.1 hm
    · exact h.2.2.1 hm
    · exact ih.2.2.1 hm
    · exact h.2.2.2 hm
    · exact ih.2.2.2 hm

/-! ## The `class` entry of the policy table, for every custom list -/

theorem defaultStep_fold (custom : Option (List Str)) (l : List Str) :
    ∀ m : PolicyTable, escOnly m →
      escOnly (l.foldl (defaultStep custom) m) ∧
      (("class".data ∈ l ∨ mapLookup m "class".data = some escCfg) →
        mapLookup (l.foldl (defaultStep custom) m) "class".data = some escCfg) := by
  induction l with
  | nil =>
    intro m hm
    refine ⟨hm, fun hc => ?_⟩
    rcases hc with hc | hc
    · exact absurd hc (List.not_mem_nil _)
    · exact hc
  | cons a l ih =>
    intro m hm
    have hm' : escOnly (defaultStep custom m a) := by
      intro k v hkv
      unfold defaultStep at hkv
      by_cases hskip : custom.isSome && (mapLookup m a).isSome
      · rw [if_pos hskip] at hkv; exact hm k v hkv
      · rw [if_neg hskip, mapLookup_insert] at hkv
        by_cases hak : a = k
        · rw [if_pos hak] at hkv; exact (Option.some.inj hkv).symm
        · rw [if_neg hak] at hkv; exact hm k v hkv
    have step := ih (defaultStep custom m a) hm'
    refine ⟨step.1, fun hc => step.2 ?_⟩
    rcases hc with hc | hc
    · rcases List.mem_cons.mp hc with hc | hc
      · right
        unfold defaultStep
        by_cases hskip : custom.isSome && (mapLookup m a).isSome
        · rw [if_pos hskip]
          simp only [Bool.and_eq_true] at hskip
          rcases Option.isSome_iff_exists.mp hskip.2 with ⟨v, hv⟩
          rw [hc, hv, hm a v hv]
        · rw [if_neg hskip, mapLookup_insert, if_pos hc.symm]
      · left; exact hc
    · right
      unfold defaultStep
      by_cases hskip : custom.isSome && (mapLookup m a).isSome
      · rw [if_pos hskip]; exact hc
      · rw [if_neg hskip, mapLookup_insert]
        by_cases hak : a = "class".data
        · rw [if_pos hak]
        · rw [if_neg hak]; exact hc

theorem customStep_fold_class (cs : List Str) :
    ∀ m : PolicyTable, mapLookup m "class".data = some escCfg →
      mapLookup (cs.foldl customStep m) "class".data = some escCfg := by
  induction cs with
  | nil => intro m h; exact h
  | cons nm rest ih =>
    intro m h
    apply ih
    unfold customStep
    rw [mapLookup_insert]
    by_cases hn : nm = "class".data
    · rw [if_pos hn]
    · rw [if_neg hn]; exact h

theorem urlStep_fold_class (custom : Option (List Str)) (l : List Str) :
    ∀ m : PolicyTable, "class".data ∉ l → mapLookup m "class".data = some escCfg →
      mapLookup (l.foldl (urlStep custom) m) "class".data = some escCfg := by
  induction l with
  | nil => intro m _ h; exact h
  | cons a l ih =>
    intro m hnl h
    have hna : a ≠ "class".data := by
      intro hEq; exact hnl (hEq ▸ List.mem_cons_self a l)
    have hnl' : "class".data ∉ l := fun hc => hnl (List.mem_cons_of_mem a hc)
    apply ih _ hnl'
    cases custom with
    | none => simpa only [urlStep] using h
    | some cs =>
      simp only [urlStep]
      by_cases hskip : (mapLookup m a).isSome
      · rw [if_pos hskip]; exact h
      · rw [if_neg hskip, if_neg hskip]
        apply customStep_fold_class
        rw [mapLookup_insert, if_neg hna]
        exact h

/-- The `class` attribute is registered escape-only for EVERY argument of
`New` (nil, empty or any custom list, colliding or not). -/
theorem newGenerator_class (custom : Option (List Str)) :
    mapLookup (newGenerator custom) "class".data = some escCfg := by
  have h0 : escOnly ([] : PolicyTable) := by intro k v hv; simp [mapLookup] at hv
  have h1 := defaultStep_fold custom defaultAllowed [] h0
  have hcls : "class".data ∈ defaultAllowed := by decide
  have h2 := h1.2 (Or.inl hcls)
  unfold newGenerator
  exact urlStep_fold_class custom defaultAllowedUrl _ (by decide) h2

/-! ## The stored-fragment safety invariant -/

theorem all_reverse_eq (q : Char → Bool) (l : Str) : l.reverse.all q = l.all q := by
  induction l with
  | nil => rfl
  | cons c cs ih => simp [List.all_cons, ih, Bool.and_comm]

theorem fragSafe_of_not_mem : ∀ f : Str, '\x22' ∉ f → '<' ∉ f → fragSafe f = true
  | [], _, _ => rfl
  | c :: cs, h1, h2 => by
    have hc1 : ¬c = '\x22' := fun he => h1 (by rw [he]; exact List.mem_cons_self _ _)
    have hc2 : ¬c = '<' := fun he => h2 (by rw [he]; exact List.mem_cons_self _ _)
    have ht := fragSafe_of_not_mem cs (fun hm => h1 (List.mem_cons_of_mem _ hm))
      (fun hm => h2 (List.mem_cons_of_mem _ hm))
    simp only [fragSafe, List.all_cons, Bool.and_eq_true] at ht ⊢
    refine ⟨?_, ht⟩
    simp [hc1, hc2]

theorem fragSafe_escapeString (s : Str) : fragSafe (escapeString s) = true :=
  fragSafe_of_not_mem _ (escapeString_safe s).2.2.1 (escapeString_safe s).1

theorem fragSafe_urlSanitize (v : Str) : fragSafe (urlSanitizeFunc v) = true := by
  cases h : goUrlParse v with
  | none => simp only [urlSanitizeFunc, h]; rfl
  | some u =>
    simp only [urlSanitizeFunc, h]
    by_cases h1 : u.scheme = "javascript".data
    · rw [if_pos h1]; rfl
    · rw [if_neg h1]
      by_cases h2 : (u.scheme.isEmpty && !listStarts u.path "/".data) = true
      · rw [if_pos h2]; rfl
      · rw [if_neg h2]; exact fragSafe_escapeString _

theorem fragSafe_runSanitizer (fn : Sanitizer) (v : Str) :
    fragSafe (runSanitizer fn v) = true := by
  cases fn with
  | escape => exact fragSafe_escapeString v
  | url => exact fragSafe_urlSanitize v

theorem goFieldsAux_all (q : Char → Bool) :
    ∀ s acc : Str, s.all q = true → acc.all q = true →
      ((goFieldsAux s acc).all fun t => t.all q) = true
  | [], acc, _, ha => by
    unfold goFieldsAux
    by_cases he : acc.isEmpty
    · rw [if_pos he]; rfl
    · rw [if_neg he]
      simp only [List.all_cons, List.all_nil, Bool.and_true]
      rw [all_reverse_eq]
      exact ha
  | c :: cs, acc, hs, ha => by
    unfold goFieldsAux
    simp only [List.all_cons, Bool.and_eq_true] at hs
    by_cases hsp : goIsSpace c
    · rw [if_pos hsp]
      by_cases he : acc.isEmpty
      · rw [if_pos he]
        exact goFieldsAux_all q cs [] hs.2 rfl
      · rw [if_neg he]
        simp only [List.all_cons, Bool.and_eq_true]
        refine ⟨?_, goFieldsAux_all q cs [] hs.2 rfl⟩
        rw [all_reverse_eq]
        exact ha
    · rw [if_neg hsp]
      refine goFieldsAux_all q cs (c :: acc) hs.2 ?_
      simp only [List.all_cons, Bool.and_eq_true]
      exact ⟨hs.1, ha⟩

theorem goFields_all_fragSafe (s : Str) (h : fragSafe s = true) :
    ((goFields s).all fragSafe) = true :=
  goFieldsAux_all _ s [] h rfl

theorem attrsSafe_insert (m : AttrMap) (k : Str) (vs : List Str)
    (hm : attrsSafe m = true) (hv : vs.all fragSafe = true) :
    attrsSafe (mapInsert m k vs) = true := by
  induction m with
  | nil => simpa [attrsSafe, mapInsert] using hv
  | cons p rest ih =>
    obtain ⟨k1, v1⟩ := p
    simp only [attrsSafe, List.all_cons, Bool.and_eq_true] at hm
    by_cases h1 : k1 = k
    · simp only [mapInsert, if_pos h1, attrsSafe, List.all_cons, Bool.and_eq_true]
      exact ⟨hv, hm.2⟩
    · simp only [mapInsert, if_neg h1, attrsSafe, List.all_cons, Bool.and_eq_true]
      exact ⟨hm.1, ih hm.2⟩

theorem attrsSafe_lookup (m : AttrMap) (k : Str) (vs : List Str)
    (hm : attrsSafe m = true) (h : mapLookup m k = some vs) :
    vs.all fragSafe = true := by
  induction m with
  | nil => simp [mapLookup] at h
  | cons p rest ih =>
    obtain ⟨k1, v1⟩ := p
    simp only [attrsSafe, List.all_cons, Bool.and_eq_true] at hm
    by_cases h1 : k1 = k
    · rw [mapLookup, if_pos h1] at h
      rw [← Option.some.inj h]
      exact hm.1
    · rw [mapLookup, if_neg h1] at h
      exact ih hm.2 h

theorem mapGetFrags_safe (m : AttrMap) (k : Str) (hm : attrsSafe m = true) :
    ((mapGetFrags m k).all fragSafe) = true := by
  unfold mapGetFrags
  cases h : mapLookup m k with
  | none => rfl
  | some vs => exact attrsSafe_lookup m k vs hm h

theorem all_append_eq {α : Type} (q : α → Bool) : ∀ a b : List α,
    ((a ++ b).all q) = (a.all q && b.all q)
  | [], _ => rfl
  | x :: xs, b => by
    simp only [List.cons_append, List.all_cons, all_append_eq q xs b, Bool.and_assoc]

/-- `setAttribute` only ever stores fragments that are `"#"` or outputs of
the HTML escaper: the safety invariant is preserved for every table, key
and raw value. -/
theorem setAttribute_safe (tbl : PolicyTable) (attrs : AttrMap) (k v : Str)
    (h : attrsSafe attrs = true) : attrsSafe (setAttribute tbl attrs k v) = true := by
  have hesc : ([escapeString v].all fragSafe) = true := by
    simp only [List.all_cons, List.all_nil, Bool.and_true]
    exact fragSafe_escapeString v
  cases hl : mapLookup tbl k with
  | none =>
    simp only [setAttribute, hl]
    by_cases h1 : listStarts k "js-".data
    · rw [if_pos h1]; exact attrsSafe_insert _ _ _ h hesc
    · rw [if_neg h1]
      by_cases h2 : listStarts k "data-".data
      · rw [if_pos h2]; exact attrsSafe_insert _ _ _ h hesc
      · rw [if_neg h2]; exact attrsSafe_insert _ _ _ h hesc
  | some config =>
    simp only [setAttribute, hl]
    by_cases ha : config.allowed
    · rw [if_pos ha]
      by_cases hc : k = "class".data
      · rw [if_pos hc]
        apply attrsSafe_insert _ _ _ h
        rw [all_append_eq, mapGetFrags_safe attrs k h, Bool.true_and]
        exact goFields_all_fragSafe _ (fragSafe_runSanitizer _ _)
      · rw [if_neg hc]
        by_cases hst : k = "style".data
        · rw [if_pos hst]
          apply attrsSafe_insert _ _ _ h
          rw [all_append_eq, mapGetFrags_safe attrs k h, Bool.true_and]
          simp only [List.all_cons, List.all_nil, Bool.and_true]
          exact fragSafe_runSanitizer _ _
        · rw [if_neg hst]
          apply attrsSafe_insert _ _ _ h
          simp only [List.all_cons, List.all_nil, Bool.and_true]
          exact fragSafe_runSanitizer _ _
    · rw [if_neg ha]
      by_cases h1 : listStarts k "js-".data
      · rw [if_pos h1]; exact attrsSafe_insert _ _ _ h hesc
      · rw [if_neg h1]
        by_cases h2 : listStarts k "data-".data
        · rw [if_pos h2]; exact attrsSafe_insert _ _ _ h hesc
        · rw [if_neg h2]; exact attrsSafe_insert _ _ _ h hesc

/-! ## Concrete policy tables -/

/-- With a nil custom slice, the URL loop of `New` registers nothing: the
table holds exactly the escape-only defaults. -/
theorem newGenerator_none_eq :
    newGenerator none = defaultAllowed.map (fun a => (a, escCfg)) := by decide

/-- With a non-nil empty custom slice, the URL attributes are registered
with the URL sanitizer after the defaults. -/
theorem newGenerator_emptyList_eq :
    newGenerator (some []) =
      defaultAllowed.map (fun a => (a, escCfg)) ++
        defaultAllowedUrl.map (fun a => (a, urlCfg)) := by decide

/-- With the custom slice `[src]`, the nested custom loop re-registers
`src` escape-only after `href`'s iteration, and the `continue` skips
`src`'s own URL registration: `src` ends up escape-only. -/
theorem newGenerator_srcCustom_eq :
    newGenerator (some ["src".data]) =
      defaultAllowed.map (fun a => (a, escCfg)) ++
        [("href".data, urlCfg), ("src".data, escCfg), ("action".data, urlCfg),
         ("formaction".data, urlCfg), ("srcset".data, urlCfg), ("ping".data, urlCfg),
         ("poster".data, urlCfg), ("hx-get".data, urlCfg), ("hx-post".data, urlCfg),
         ("hx-put".data, urlCfg), ("hx-patch".data, urlCfg),
         ("hx-delete".data, urlCfg)] := by decide

/-! ## The claims -/

/-- Claim C1 is violated by the code: with a nil custom-attribute slice,
`New` never registers the URL attributes (the whole URL loop body is
guarded by `allowedAttributesCustom != nil`), so `href` is not in the
table and `setAttribute` stores the escaped javascript URL under
`data-href` instead of storing `"#"` under `href` — even though the URL
validator itself would have produced `"#"`. -/
theorem c1_nil_custom_href_unprotected :
    mapLookup (newGenerator none) "href".data = none ∧
    setAttribute (newGenerator none) [] "href".data "javascript:alert(1)".data
      = [("data-href".data, ["javascript:alert(1)".data])] ∧
    urlSanitizeFunc "javascript:alert(1)".data = "#".data := by
  rw [newGenerator_none_eq]
  decide

/-- Claim C2: the URL sanitizer returns `"#"` when parsing fails, when
the parsed scheme is `javascript`, and when the scheme is empty with a
non-rooted path; otherwise (http/https scheme, or any non-javascript
scheme with the rooted-path condition) it returns the HTML-escaped
re-serialization of the parsed URL. -/
theorem c2_url_sanitizer_spec (s : Str) :
    (goUrlParse s = none → urlSanitizeFunc s = "#".data) ∧
    (∀ u, goUrlParse s = some u →
      (u.scheme = "javascript".data → urlSanitizeFunc s = "#".data) ∧
      (u.scheme = [] → listStarts u.path "/".data = false → urlSanitizeFunc s = "#".data) ∧
      ((u.scheme = "http".data ∨ u.scheme = "https".data ∨
          (¬u.scheme = "javascript".data ∧
            (u.scheme = [] → listStarts u.path "/".data = true))) →
        urlSanitizeFunc s = escapeString (urlString u))) := by
  refine ⟨fun h => by simp only [urlSanitizeFunc, h], fun u h => ⟨?_, ?_, ?_⟩⟩
  · intro hj
    simp only [urlSanitizeFunc, h, if_pos hj]
  · intro he hp
    have hj : ¬u.scheme = "javascript".data := by rw [he]; decide
    have hc : (u.scheme.isEmpty && !listStarts u.path "/".data) = true := by
      rw [he, hp]; rfl
    simp only [urlSanitizeFunc, h, if_neg hj, if_pos hc]
  · intro hd
    have hj : ¬u.scheme = "javascript".data := by
      rcases hd with h1 | h1 | h1
      · rw [h1]; decide
      · rw [h1]; decide
      · exact h1.1
    have hc : ¬((u.scheme.isEmpty && !listStarts u.path "/".data) = true) := by
      rcases hd with h1 | h1 | h1
      · rw [h1, show ("http".data : Str).isEmpty = false from by decide]
        simp
      · rw [h1, show ("https".data : Str).isEmpty = false from by decide]
        simp
      · intro hx
        cases hsch : u.scheme with
        | nil =>
          rw [h1.2 hsch] at hx
          rw [hsch] at hx
          simp at hx
        | cons c cs =>
          rw [hsch] at hx
          simp at hx
    simp only [urlSanitizeFunc, h, if_neg hj, if_neg hc]

/-- Witness for claim C2 at a concrete http URL. -/
theorem c2_url_sanitizer_witness :
    goUrlParse c2ex = some c2exU ∧
    urlSanitizeFunc c2ex = escapeString (urlString c2exU) ∧
    urlSanitizeFunc c2ex = "http://example.com/a?b=c&amp;d=e".data :=
  ⟨by decide,
   ((c2_url_sanitizer_spec c2ex).2 c2exU (by decide)).2.2 (Or.inl rfl),
   by decide⟩

/-- Claim C3 is violated by the code: a custom attribute name that equals
a built-in URL attribute OVERRIDES the built-in entry.  With an empty
(non-nil) custom slice `src` is registered with the URL validator, but
with custom slice `[src]` the nested custom loop re-registers `src`
escape-only, so a javascript URL is merely escaped instead of replaced by
`"#"`. -/
theorem c3_custom_overrides_url_builtin :
    mapLookup (newGenerator (some [])) "src".data = some urlCfg ∧
    mapLookup (newGenerator (some ["src".data])) "src".data = some escCfg ∧
    setAttribute (newGenerator (some ["src".data])) [] "src".data
        "javascript:alert(1)".data
      = [("src".data, ["javascript:alert(1)".data])] := by
  rw [newGenerator_emptyList_eq, newGenerator_srcCustom_eq]
  decide

/-- Claim C4 is violated by the code: repeated `style` values accumulate
as separate fragments, but `generateHtml` joins every fragment list with
a single space (both branches of its switch are identical), so the two
declarations are emitted as `color:red font-weight:bold` with no
semicolon separation. -/
theorem c4_style_fragments_space_joined :
    ((div0.attr (newGenerator none) "style".data "color:red".data).attr
        (newGenerator none) "style".data "font-weight:bold".data).attributes
      = [("style".data, ["color:red".data, "font-weight:bold".data])] ∧
    generateHtml ((div0.attr (newGenerator none) "style".data "color:red".data).attr
        (newGenerator none) "style".data "font-weight:bold".data)
      = "<div style=\x22color:red font-weight:bold\x22></div>".data := by
  rw [newGenerator_none_eq]
  decide

/-- Claim C5: for EVERY custom-attribute argument and every fresh
element, `Attr("class", "a")` then `Attr("class", "b c")` accumulates the
whitespace-split tokens into the single fragment sequence
`["a", "b", "c"]`, serialized space-joined as `class="a b c"`. -/
theorem c5_class_accumulates (custom : Option (List Str)) (tag : GoTag)
    (children : List GoElement) (content : Str) :
    (((GoElement.mk tag [] children content).attr (newGenerator custom) "class".data
        "a".data).attr (newGenerator custom) "class".data "b c".data).attributes
      = [("class".data, ["a".data, "b".data, "c".data])] ∧
    genAttrs [("class".data, ["a".data, "b".data, "c".data])]
      = " class=\x22a b c\x22".data ∧
    generateHtml (((GoElement.mk (GoTag.normal "div".data) [] [] []).attr
        (newGenerator custom) "class".data "a".data).attr (newGenerator custom)
        "class".data "b c".data)
      = "<div class=\x22a b c\x22></div>".data := by
  have h := newGenerator_class custom
  refine ⟨?_, by decide, ?_⟩
  · simp only [GoElement.attr, GoElement.attributes, setAttribute, h]
    decide
  · simp only [GoElement.attr, setAttribute, h]
    decide

/-- Claim C6: an attribute key missing from the policy table is stored
under `"data-" + key` (escape-only, replace mode) unless it starts with
the `js-` developer-hook prefix or is already `data-`-prefixed, in which
case it is stored under the key unchanged. -/
theorem c6_fallback_data_attr (tbl : PolicyTable) (attrs : AttrMap) (k v : Str)
    (h : mapLookup tbl k = none) :
    (listStarts k "js-".data = false → listStarts k "data-".data = false →
      setAttribute tbl attrs k v = mapInsert attrs ("data-".data ++ k) [escapeString v]) ∧
    (listStarts k "js-".data = true ∨ listStarts k "data-".data = true →
      setAttribute tbl attrs k v = mapInsert attrs k [escapeString v]) := by
  constructor
  · intro h1 h2
    simp only [setAttribute, h, h1, h2]
    simp
  · intro h12
    by_cases hjs : listStarts k "js-".data = true
    · simp only [setAttribute, h, hjs]
      simp
    · have hjs' : listStarts k "js-".data = false := by
        revert hjs; cases listStarts k "js-".data <;> simp
      rcases h12 with h1 | h1
      · rw [h1] at hjs'; cases hjs'
      · simp only [setAttribute, h, hjs', h1]
        simp

/-- Witness for claim C6: `Attr("onclick", "x")` stores `data-onclick`
with value `x` and never `onclick`. -/
theorem c6_fallback_witness :
    setAttribute (newGenerator none) [] "onclick".data "x".data
      = mapInsert [] ("data-".data ++ "onclick".data) [escapeString "x".data] ∧
    mapInsert ([] : AttrMap) ("data-".data ++ "onclick".data) [escapeString "x".data]
      = [("data-onclick".data, ["x".data])] :=
  ⟨(c6_fallback_data_attr (newGenerator none) [] "onclick".data "x".data
      (by rw [newGenerator_none_eq]; decide)).1 (by decide) (by decide),
   by decide⟩

/-- Claim C7 as stated is violated on the ampersand: the escaped form of
`"&"` is `"&amp;"`, which still contains a literal `&`. -/
theorem c7_amp_counterexample :
    escapeString "&".data = "&amp;".data ∧ '&' ∈ escapeString "&".data := by decide

/-- Claim C7, amended: each of the five special characters is replaced by
its entity, all other characters pass through unchanged, and the output
contains no literal `<`, `>`, `"` or `'` (ampersands remain, as the lead
character of every emitted entity). -/
theorem c7_escape_amended (s : Str) :
    escChar '&' = "&amp;".data ∧ escChar '<' = "&lt;".data ∧ escChar '>' = "&gt;".data ∧
    escChar '\x22' = "&#34;".data ∧ escChar '\x27' = "&#39;".data ∧
    (∀ c, c ∈ s → ¬c = '&' → ¬c = '<' → ¬c = '>' → ¬c = '\x22' → ¬c = '\x27' →
      escChar c = [c]) ∧
    escapeString s = (s.map escChar).flatten ∧
    '<' ∉ escapeString s ∧ '>' ∉ escapeString s ∧ '\x22' ∉ escapeString s ∧
    '\x27' ∉ escapeString s := by
  refine ⟨by decide, by decide, by decide, by decide, by decide, ?_, ?_,
    (escapeString_safe s).1, (escapeString_safe s).2.1, (escapeString_safe s).2.2.1,
    (escapeString_safe s).2.2.2⟩
  · intro c _ h1 h2 h3 h4 h5
    simp [escChar, h1, h2, h3, h4, h5]
  · induction s with
    | nil => rfl
    | cons c cs ih => simp [escapeString, ih]

/-- Witness for the amended claim C7 at a concrete string. -/
theorem c7_escape_witness :
    ('<' ∉ escapeString "a<b&c".data) ∧ escChar 'a' = ['a'] :=
  ⟨(c7_escape_amended "a<b&c".data).2.2.2.2.2.2.2.1,
   (c7_escape_amended "a<b&c".data).2.2.2.2.2.1 'a' (by decide) (by decide) (by decide)
     (by decide) (by decide) (by decide)⟩

/-- Claim C8 as stated fails for a void tag whose name is empty: the
serializer's first branch treats any empty tag name as the implicit root
and emits the children (here a whole `<p>` element), with no ` />` and no
open tag. -/
theorem c8_empty_void_counterexample :
    generateHtml (GoElement.mk (GoTag.void []) [] [pEl] "txt".data)
      = "<p>hi</p>".data := by decide

/-- Claim C8, amended: every void element with a NONEMPTY tag name is
serialized as the open tag plus attributes followed by ` />`, with no
closing tag and no traversal of content or children even when present. -/
theorem c8_void_amended (nm : Str) (attrs : AttrMap) (children : List GoElement)
    (content : Str) (h : ¬nm = []) :
    generateHtml (GoElement.mk (GoTag.void nm) attrs children content)
      = ['<'] ++ nm ++ genAttrs attrs ++ " />".data := by
  cases nm with
  | nil => exact absurd rfl h
  | cons c cs => simp [generateHtml, GoTag.name]

/-- Witness for the amended claim C8: a `br` with an attribute, a child
and content still serializes to `<br class="x" />`. -/
theorem c8_void_witness :
    generateHtml (GoElement.mk (GoTag.void "br".data) [("class".data, ["x".data])] [pEl]
        "txt".data)
      = ['<'] ++ "br".data ++ genAttrs [("class".data, ["x".data])] ++ " />".data ∧
    ['<'] ++ "br".data ++ genAttrs [("class".data, ["x".data])] ++ " />".data
      = "<br class=\x22x\x22 />".data :=
  ⟨c8_void_amended "br".data [("class".data, ["x".data])] [pEl] "txt".data (by decide),
   by decide⟩

/-- Claim C9: for every allowed key other than `class` and `style`,
assignment is last-write-wins — two successive assignments equal the
second alone, and the stored fragment sequence is exactly the sanitized
second value. -/
theorem c9_replace_last_write_wins (tbl : PolicyTable) (attrs : AttrMap) (k v1 v2 : Str)
    (cfg : AttrConfig) (hl : mapLookup tbl k = some cfg) (ha : cfg.allowed = true)
    (hc : ¬k = "class".data) (hs : ¬k = "style".data) :
    setAttribute tbl (setAttribute tbl attrs k v1) k v2 = setAttribute tbl attrs k v2 ∧
    mapLookup (setAttribute tbl attrs k v2) k = some [runSanitizer cfg.fn v2] := by
  have hset : ∀ (m : AttrMap) (v : Str),
      setAttribute tbl m k v = mapInsert m k [runSanitizer cfg.fn v] := by
    intro m v
    simp [setAttribute, hl, ha, hc, hs]
  refine ⟨?_, ?_⟩
  · rw [hset, hset, hset, mapInsert_insert]
  · rw [hset, mapLookup_insert, if_pos rfl]

/-- Witness for claim C9 on the `id` attribute. -/
theorem c9_replace_witness :
    setAttribute (newGenerator none)
        (setAttribute (newGenerator none) [] "id".data "btn1".data) "id".data "btn2".data
      = setAttribute (newGenerator none) [] "id".data "btn2".data ∧
    mapLookup (setAttribute (newGenerator none) [] "id".data "btn2".data) "id".data
      = some [runSanitizer escCfg.fn "btn2".data] :=
  c9_replace_last_write_wins (newGenerator none) [] "id".data "btn1".data "btn2".data
    escCfg (by rw [newGenerator_none_eq]; decide) rfl (by decide) (by decide)

/-- Claim C10: every operation that stores attribute fragments preserves
the invariant that no stored fragment contains a literal double quote or
`<` — each stored fragment is `"#"` or an output of the HTML escaper. -/
theorem c10_no_quote_no_lt_invariant (tbl : PolicyTable) (e : GoElement)
    (h : attrsSafe e.attributes = true) :
    (∀ k v, attrsSafe ((e.attr tbl k v).attributes) = true) ∧
    (∀ kvs, attrsSafe ((e.withAttrs tbl kvs).attributes) = true) := by
  cases e with
  | mk tag attrs children content =>
    simp only [GoElement.attributes] at h
    constructor
    · intro k v
      simp only [GoElement.attr, GoElement.attributes]
      exact setAttribute_safe tbl attrs k v h
    · intro kvs
      induction kvs generalizing attrs with
      | nil => simpa only [GoElement.withAttrs, List.foldl, GoElement.attributes] using h
      | cons kv rest ih =>
        simp only [GoElement.withAttrs, List.foldl, GoElement.attr]
        have hrec := ih (setAttribute tbl attrs kv.1 kv.2)
          (setAttribute_safe tbl attrs kv.1 kv.2 h)
        simpa only [GoElement.withAttrs] using hrec

/-- Witness for claim C10: a sanitizer-bypassing raw value still leaves
only safe fragments in the map. -/
theorem c10_invariant_witness :
    attrsSafe ((div0.attr (newGenerator none) "title".data
      "\x22><script>".data).attributes) = true :=
  (c10_no_quote_no_lt_invariant (newGenerator none) div0 (by decide)).1 "title".data
    "\x22><script>".data
